import Mathlib

/-!
# Formal model of clvibe's installation and identity-resolution engine

A shallow embedding of the core of `src/clvibe.py` (class `ClvibeManager`):
the identity resolver `_get_unique_slug`, the source classifier in
`install_game` / `_is_collection_zip`, the install pipeline
(`_install_from_directory`, `_install_from_zip`,
`_install_collection_from_directory`), the archive synchronizer
(`sync_zips`) and the duplicate detector
(`_compute_game_hash` / `find_duplicates`).

Python strings are modelled as lists of characters (`Str`); the string
operations the source uses (`str.lower`, single-character `str.replace`,
slicing `[:20]`, f-string concatenation, `str(counter)`) are defined
structurally so that concrete runs reduce inside the kernel.
The filesystem is modelled by association lists: the games root maps a
slug (directory name) to the parse result of its `game.json`, the backups
root maps a slug to the (abstract) content of `<slug>.zip`.
-/

/-- Python strings, modelled as lists of characters. -/
abbrev Str : Type := List Char

/-- Python `str.lower()`, per-character lowercasing (values in the source
are ASCII, where `Char.toLower` agrees with Python). -/
def pyLower (s : Str) : Str := s.map Char.toLower

/-- Python `str.replace(pat, rep)` for a single-character pattern `pat`:
each occurrence of `pat` is replaced by `rep`.  For length-1 patterns
Python's left-to-right non-overlapping replacement is exactly
per-character substitution. -/
def pyReplaceChar (pat : Char) (rep : Str) (s : Str) : Str :=
  s.flatMap fun c => if c = pat then rep else [c]

/-- Python `s.endswith(t)`: the last `|t|` characters of `s` equal `t`. -/
def pyEndsWith (s suffix : Str) : Bool :=
  decide (suffix.length ≤ s.length) && decide (s.drop (s.length - suffix.length) = suffix)

/-- Fueled decimal rendering: digits of `n` are peeled least-significant
first into the accumulator.  With fuel `n + 1` this is Python's `str(n)`
for a natural number `n` (`decStr_eq_decSpec` discharges the fuel). -/
def decDigitsCore : Nat → Nat → Str → Str
  | 0, _, acc => acc
  | fuel + 1, n, acc =>
    let d := Nat.digitChar (n % 10)
    if n / 10 = 0 then d :: acc else decDigitsCore fuel (n / 10) (d :: acc)

/-- Python `str(n)` for a natural number: decimal digit characters. -/
def decStr (n : Nat) : Str := decDigitsCore (n + 1) n []

/-- Reference decimal rendering by well-founded recursion; used to reason
about `decStr` (injectivity, fuel sufficiency). -/
def decSpec (n : Nat) : Str :=
  if n < 10 then [Nat.digitChar n]
  else decSpec (n / 10) ++ [Nat.digitChar (n % 10)]
termination_by n
decreasing_by exact Nat.div_lt_self (by omega) (by omega)

/-- A parsed `game.json` as read by the identity resolver: the fields the
resolver consults via `metadata.get`, each optional exactly as a missing
key is possible in the loaded JSON object. -/
structure Manifest where
  name : Option Str
  author : Option Str
  version : Option Str
deriving DecidableEq

/-- The games root: one entry per immediate subdirectory of
`~/.clvibe/games`, keyed by the directory name (the slug); the value is
the parse result of the directory's `game.json` (`none` models a missing
or malformed `game.json`, which `_get_unique_slug` skips over). -/
abbrev GamesDirList := List (Str × Option Manifest)

/-- Directory lookup under the games root: `(games_dir / slug)` together
with the parse of its `game.json`.  `none` means the directory does not
exist. -/
def lookupGame (gs : GamesDirList) (slug : Str) : Option (Option Manifest) :=
  (gs.find? fun e => decide (e.1 = slug)).map (·.2)

/-- Models `(self.games_dir / slug).exists()`. -/
def slugTaken (gs : GamesDirList) (slug : Str) : Bool :=
  (lookupGame gs slug).isSome

/-- Default author `"unknown"` used by `metadata.get("author", "unknown")`. -/
def unknownStr : Str := "unknown".data

/-- Default version `"1.0"` used by `metadata.get("version", "1.0")`. -/
def defaultVersionStr : Str := "1.0".data

/-- Models `author.lower().replace(" ", "-")[:20]` from `_get_unique_slug`. -/
def authorSlugOf (m : Manifest) : Str :=
  (pyReplaceChar ' ' ['-'] (pyLower (m.author.getD unknownStr))).take 20

/-- Models `metadata.get("version", "1.0").replace(".", "")` from
`_get_unique_slug`. -/
def versionTagOf (m : Manifest) : Str :=
  pyReplaceChar '.' [] (m.version.getD defaultVersionStr)

/-- The update-in-place test of `_get_unique_slug`: the occupant's
`game.json` parsed and its `author` and `version` fields (via `.get`,
`None` when absent) both equal the incoming manifest's. -/
def occupantMatches : Option Manifest → Manifest → Bool
  | some em, m => decide (em.author = m.author) && decide (em.version = m.version)
  | none, _ => false

/-- Models `f"{pre}-{c}"` for the numeric-counter fallback. -/
def counterSlug (pre : Str) (c : Nat) : Str := pre ++ '-' :: decStr c

/-- The `while (games_dir / f"{slug}-{counter}").exists(): counter += 1`
loop, fueled; fuel `gs.length + 1` always finds a free counter
(`exists_free_counter`), so the fueled loop agrees with Python's
unbounded one. -/
def counterLoop (gs : GamesDirList) (pre : Str) : Nat → Nat → Nat
  | 0, c => c
  | fuel + 1, c =>
    if slugTaken gs (counterSlug pre c) then counterLoop gs pre fuel (c + 1) else c

/-- Models `slug_with_author = f"{base_slug}-by-{author_slug}"`. -/
def authorSuffixSlug (baseSlug : Str) (m : Manifest) : Str :=
  baseSlug ++ "-by-".data ++ authorSlugOf m

/-- Models `slug_with_version = f"{slug_with_author}-v{version}"`. -/
def versionSuffixSlug (baseSlug : Str) (m : Manifest) : Str :=
  authorSuffixSlug baseSlug m ++ "-v".data ++ versionTagOf m

/-- Models `ClvibeManager._get_unique_slug(base_slug, metadata)`: the ordered
tie-break cascade.  Return the base slug when its directory is free or
when the occupant's (author, version) equal the incoming manifest's
(update-in-place); otherwise try the author suffix, then the version
suffix, then the first free numeric counter starting at 2. -/
def get_unique_slug (gs : GamesDirList) (baseSlug : Str) (m : Manifest) : Str :=
  match lookupGame gs baseSlug with
  | none => baseSlug
  | some occ =>
    if occupantMatches occ m then baseSlug
    else if slugTaken gs (authorSuffixSlug baseSlug m) then
      if slugTaken gs (versionSuffixSlug baseSlug m) then
        counterSlug (versionSuffixSlug baseSlug m)
          (counterLoop gs (versionSuffixSlug baseSlug m) (gs.length + 1) 2)
      else versionSuffixSlug baseSlug m
    else authorSuffixSlug baseSlug m

/-- Models `game_name.lower().replace(" ", "-")`: the base slug computed from a
display name by the install pipeline. -/
def normalizeSlug (name : Str) : Str := pyReplaceChar ' ' ['-'] (pyLower name)

/-! ## Source classifier: `install_game` (directory branch) and `_is_collection_zip` -/

/-- Classification of a directory install source by the dispatch in
`install_game`. -/
inductive DirClass where
  | noManifest
  | single (gameDir : List Str)
  | collection (manifestPaths : List (List Str))
deriving DecidableEq

/-- The manifest filename `"game.json"`. -/
def gameJsonName : Str := "game.json".data

/-- Models `source.rglob("game.json")` over a directory source modelled as the
list of its file paths (lists of path segments): the paths whose final
segment is exactly the manifest filename. -/
def manifestPathsOf (paths : List (List Str)) : List (List Str) :=
  paths.filter fun p => decide (p.getLast? = some gameJsonName)

/-- The directory branch of `install_game`: more than one manifest found
recursively means a collection; exactly one means a single game rooted at
the directory containing the manifest (`game_jsons[0].parent`), unless
collection mode is forced; none means the `"No game.json found"` failure,
a branch that performs no installation. -/
def classify_install_dir (paths : List (List Str)) (forceCollection : Bool) : DirClass :=
  let gameJsons := manifestPathsOf paths
  if 1 < gameJsons.length then .collection gameJsons
  else if gameJsons.length = 1 then
    if forceCollection then .collection gameJsons
    else
      match gameJsons.head? with
      | some p => .single p.dropLast
      | none => .noManifest
  else .noManifest

/-- The counting loop of `_is_collection_zip`: Python iterates
`zf.namelist()` and counts every entry name for which
`name.endswith('game.json')` holds, returning `True` as soon as the
count exceeds 1. -/
def collectionZipLoop : List Str → Nat → Bool
  | [], _ => false
  | n :: rest, count =>
    if pyEndsWith n gameJsonName then
      if 1 < count + 1 then true else collectionZipLoop rest (count + 1)
    else collectionZipLoop rest count

/-- Models `ClvibeManager._is_collection_zip`, over the archive's entry names. -/
def is_collection_zip (names : List Str) : Bool := collectionZipLoop names 0

/-- The spec's matching rule (§4.1), as a second definition for
comparison: "a manifest path match is any path whose final segment equals
the manifest filename".  The final segment of a zip entry name is what
follows the last `'/'`. -/
def manifestEntryMatchSpec (name : Str) : Bool :=
  decide ((name.reverse.takeWhile fun c => c ≠ '/').reverse = gameJsonName)

/-! ## Install pipeline state -/

/-- Contents of one installed game directory: the parse result of its
`game.json` plus an abstract identity for its file tree. -/
structure GameDir where
  manifest : Option Manifest
  content : Str
deriving DecidableEq

/-- The two roots the pipeline mutates: `games/` maps a slug to its
directory contents, `zipped/` maps a slug to the content identity of
`<slug>.zip`. -/
structure FsState where
  games : List (Str × GameDir)
  zips : List (Str × Str)
deriving DecidableEq

/-- Generic association-list lookup (a filesystem name lookup). -/
def lookupAssoc (l : List (Str × α)) (k : Str) : Option α :=
  (l.find? fun e => decide (e.1 = k)).map (·.2)

/-- Create or overwrite the entry named `k` (e.g. `shutil.copy2` onto an
existing path, or `rmtree` followed by a fresh copy). -/
def assocSet (l : List (Str × α)) (k : Str) (v : α) : List (Str × α) :=
  if (l.find? fun e => decide (e.1 = k)).isSome then
    l.map fun e => if e.1 = k then (k, v) else e
  else l ++ [(k, v)]

/-- Delete the entry named `k` (`Path.unlink` / `shutil.rmtree`). -/
def assocRemove (l : List (Str × α)) (k : Str) : List (Str × α) :=
  l.filter fun e => decide (e.1 ≠ k)

/-- The games root as `_get_unique_slug` sees it: directory names plus
each directory's `game.json` parse. -/
def gamesView (games : List (Str × GameDir)) : GamesDirList :=
  games.map fun e => (e.1, e.2.manifest)

/-- Result of one install invocation.  Every constructor corresponds to a
normal `return` of the Python function: none of these paths raises. -/
inductive InstallOutcome where
  | installed (slug : Str)
  | cancelled
  | invalidManifest
  | noManifestFound
deriving DecidableEq

/-- A single-game zip source for `_install_from_zip`: `manifest` is the
parse of the one `game.json` found in the extracted tree (the modelled
path assumes it parses), `stem` is `zip_path.stem`, and `content`
identifies both the zip bytes and the extracted game tree. -/
structure ZipSrc where
  manifest : Manifest
  stem : Str
  content : Str
deriving DecidableEq

/-- Models `ClvibeManager._install_from_zip`, mirroring the source's order of
effects: the incoming zip is copied over `zipped/<slug>.zip`
(`shutil.copy2`, overwriting any existing backup) BEFORE the overwrite
confirmation; declining then `unlink`s that destination file and returns
with the games root untouched. -/
def install_from_zip (st : FsState) (z : ZipSrc) (confirmOverwrite : Bool) :
    FsState × InstallOutcome :=
  let gameName := z.manifest.name.getD z.stem
  let baseSlug := normalizeSlug gameName
  let slug := get_unique_slug (gamesView st.games) baseSlug z.manifest
  let zips1 := assocSet st.zips slug z.content
  if slugTaken (gamesView st.games) slug then
    if confirmOverwrite then
      ⟨⟨assocSet st.games slug ⟨some z.manifest, z.content⟩, zips1⟩, .installed slug⟩
    else ⟨⟨st.games, assocRemove zips1 slug⟩, .cancelled⟩
  else ⟨⟨assocSet st.games slug ⟨some z.manifest, z.content⟩, zips1⟩, .installed slug⟩

/-- A directory source for `_install_from_directory`: the parse state of
its `game.json` (`none`: file missing; `some none`: malformed JSON),
`dirName` is `source_dir.name`, `content` identifies the source tree. -/
structure DirSrc where
  gameJson : Option (Option Manifest)
  dirName : Str
  content : Str
deriving DecidableEq

/-- Models `ClvibeManager._install_from_directory`.  All of its failure paths
print a message and return normally (missing `game.json`, malformed JSON,
declined overwrite).  Declining the overwrite touches neither root; a
successful install copies the tree to `games/<slug>` and then creates the
backup `zipped/<slug>.zip` from it. -/
def install_from_directory (st : FsState) (src : DirSrc) (confirmOverwrite : Bool) :
    FsState × InstallOutcome :=
  match src.gameJson with
  | none => (st, .noManifestFound)
  | some none => (st, .invalidManifest)
  | some (some m) =>
    let baseSlug := normalizeSlug (m.name.getD src.dirName)
    let slug := get_unique_slug (gamesView st.games) baseSlug m
    if slugTaken (gamesView st.games) slug then
      if confirmOverwrite then
        ⟨⟨assocSet st.games slug ⟨some m, src.content⟩,
          assocSet st.zips slug src.content⟩, .installed slug⟩
      else (st, .cancelled)
    else
      ⟨⟨assocSet st.games slug ⟨some m, src.content⟩,
        assocSet st.zips slug src.content⟩, .installed slug⟩

/-- The per-item loop of `_install_collection_from_directory`: each item
is passed to `_install_from_directory` inside `try/except`, and
`successful` is incremented when no exception propagates, `failed` when
one does.  Every failure path of `_install_from_directory` returns
normally instead of raising, so the `except` branch is dead and the loop
increments `successful` for every item.  Returns (final state,
successful, failed). -/
def install_collection_loop (st : FsState) (items : List DirSrc)
    (confirmOverwrite : Bool) : FsState × Nat × Nat :=
  items.foldl
    (fun acc item =>
      ((install_from_directory acc.1 item confirmOverwrite).1, acc.2.1 + 1, acc.2.2))
    (st, 0, 0)

/-! ## Archive synchronizer: `sync_zips` -/

/-- Result of one `sync_zips` run: the final backup set and the reported
created/orphaned slug lists. -/
structure SyncResult where
  zips : List Str
  created : List Str
  orphaned : List Str
deriving DecidableEq

/-- Models `ClvibeManager.sync_zips`: `installed` is the slug set of
`_get_all_games()` (directories with a readable `game.json`), `zips` the
stems of `zipped/*.zip`.  A backup is created for every installed slug
missing one; orphans are computed against the `zip_files` snapshot taken
at entry; deleting them is gated on the explicit confirmation
(`deleteOrphans`). -/
def sync_zips (installed zips : List Str) (deleteOrphans : Bool) : SyncResult :=
  let created := installed.filter fun s => decide (s ∉ zips)
  let zips1 := zips ++ created
  let orphaned := zips.filter fun z => decide (z ∉ installed)
  let zips2 :=
    if deleteOrphans then zips1.filter fun z => decide (z ∉ orphaned) else zips1
  ⟨zips2, created, orphaned⟩

/-! ## Duplicate detector: `_compute_game_hash` and `find_duplicates` -/

/-- A loaded `game.json` object as hashed by `_compute_game_hash`: the
JSON dictionary as an association list of string keys and string values.
`json.load` collapses duplicate keys, so the key lists of interest are
duplicate-free. -/
abbrev Meta := List (Str × Str)

/-- Python's `<=` on strings: code-point lexicographic order.  Used both
by `sorted(...)` over sort keys and by `json.dumps(..., sort_keys=True)`. -/
def leChars : Str → Str → Bool
  | [], _ => true
  | _ :: _, [] => false
  | a :: as, b :: bs =>
    if a.toNat = b.toNat then leChars as bs else decide (a.toNat < b.toNat)

/-- Key order used by `json.dumps(metadata, sort_keys=True)`. -/
def metaKeyLe (a b : Str × Str) : Prop := leChars a.1 b.1 = true

instance : DecidableRel metaKeyLe := fun a b => by unfold metaKeyLe; infer_instance

instance : IsTotal (Str × Str) metaKeyLe := by
  constructor
  have h : ∀ x y : Str, leChars x y = true ∨ leChars y x = true := by
    intro x
    induction x with
    | nil => intro y; exact Or.inl rfl
    | cons a as ih =>
      intro y
      cases y with
      | nil => exact Or.inr rfl
      | cons b bs =>
        by_cases hab : a.toNat = b.toNat
        · rcases ih bs with h' | h'
          · exact Or.inl (by simp [leChars, hab, h'])
          · exact Or.inr (by simp [leChars, hab.symm, h'])
        · by_cases hlt : a.toNat < b.toNat
          · exact Or.inl (by simp [leChars, hab, hlt])
          · exact Or.inr (by
              have h1 : b.toNat ≠ a.toNat := fun h' => hab h'.symm
              have h2 : b.toNat < a.toNat := by omega
              simp [leChars, h1, h2])
  exact fun a b => h a.1 b.1

instance : IsTrans (Str × Str) metaKeyLe := by
  constructor
  have h : ∀ x y z : Str, leChars x y = true → leChars y z = true → leChars x z = true := by
    intro x
    induction x with
    | nil => intro y z _ _; rfl
    | cons a as ih =>
      intro y z hxy hyz
      cases y with
      | nil => simp [leChars] at hxy
      | cons b bs =>
        cases z with
        | nil => simp [leChars] at hyz
        | cons c cs =>
          simp only [leChars] at hxy hyz ⊢
          by_cases hab : a.toNat = b.toNat
          · rw [if_pos hab] at hxy
            by_cases hbc : b.toNat = c.toNat
            · rw [if_pos hbc] at hyz
              rw [if_pos (hab.trans hbc)]
              exact ih bs cs hxy hyz
            · rw [if_neg hbc] at hyz
              have hyz' : b.toNat < c.toNat := of_decide_eq_true hyz
              have hac : a.toNat ≠ c.toNat := by omega
              rw [if_neg hac]
              exact decide_eq_true (by omega)
          · rw [if_neg hab] at hxy
            have hxy' : a.toNat < b.toNat := of_decide_eq_true hxy
            by_cases hbc : b.toNat = c.toNat
            · have hac : a.toNat ≠ c.toNat := by omega
              rw [if_neg hac]
              exact decide_eq_true (by omega)
            · rw [if_neg hbc] at hyz
              have hyz' : b.toNat < c.toNat := of_decide_eq_true hyz
              have hac : a.toNat ≠ c.toNat := by omega
              rw [if_neg hac]
              exact decide_eq_true (by omega)
  exact fun a b c => h a.1 b.1 c.1

/-- An installed game as enumerated by `_get_all_games`: its slug (the
directory name under the games root), its parsed `game.json`, and an
abstract identity for its other content files (which the duplicate
detector never consults). -/
structure InstGame where
  slug : Str
  meta : Meta
  content : Str
deriving DecidableEq

/-- Models `dict.get` on a loaded JSON object. -/
def lookupMeta (m : Meta) (k : Str) : Option Str :=
  (m.find? fun e => decide (e.1 = k)).map (·.2)

/-- The key `"name"`. -/
def nameKey : Str := "name".data

/-- The `"name"` recorded by `_get_all_games`:
`metadata.get("name", game_dir.name)`. -/
def gameName (g : InstGame) : Str := (lookupMeta g.meta nameKey).getD g.slug

/-- The sort order of `_get_all_games`: `key=lambda x: x["name"].lower()`. -/
def gameLe (a b : InstGame) : Prop :=
  leChars (pyLower (gameName a)) (pyLower (gameName b)) = true

instance : DecidableRel gameLe := fun a b => by unfold gameLe; infer_instance

/-- Models `_get_all_games()` over the games-root listing (the directories with
a readable `game.json`), sorted by lowercased display name.  Python's
`sorted` is a stable sort; `List.insertionSort` is the corresponding
stable structural sort. -/
def get_all_games (listing : List InstGame) : List InstGame :=
  List.insertionSort gameLe listing

/-- The `'"'` character (34). -/
def quoteChar : Char := Char.ofNat 34

/-- The opening brace character (123). -/
def lbraceChar : Char := Char.ofNat 123

/-- The closing brace character (125). -/
def rbraceChar : Char := Char.ofNat 125

/-- Models `json.dumps` of one `"key": "value"` entry (string escaping is not
modelled; the manifest fields of interest contain no quotes or
backslashes). -/
def dumpsPair (p : Str × Str) : Str :=
  quoteChar :: p.1 ++ quoteChar :: ':' :: ' ' :: quoteChar :: p.2 ++ [quoteChar]

/-- The `", "`-joined serialization of the entry list. -/
def dumpsPairs : List (Str × Str) → Str
  | [] => []
  | [p] => dumpsPair p
  | p :: q :: rest => dumpsPair p ++ ',' :: ' ' :: dumpsPairs (q :: rest)

/-- Models `json.dumps(metadata, sort_keys=True)`: the entries serialized in
ascending key order, inside braces. -/
def dumps_sorted (m : Meta) : Str :=
  lbraceChar :: dumpsPairs (List.insertionSort metaKeyLe m) ++ [rbraceChar]

/-- Models `ClvibeManager._compute_game_hash`: the MD5 hex digest of
`json.dumps(metadata, sort_keys=True)`.  The digest is modelled as the
identity on the canonical serialization (an injective stand-in for the
hash), so fingerprints are bit-identical iff the serializations are
equal. -/
def compute_game_hash (m : Meta) : Str := dumps_sorted m

/-- The fingerprint `find_duplicates` computes for one installed game:
the hash of its `game.json` alone; the game's other content files never
enter. -/
def fingerprint (g : InstGame) : Str := compute_game_hash g.meta

/-- The keys of the dict `hash_to_games`, in first-encounter
(insertion) order. -/
def hashKeys (games : List InstGame) : List Str :=
  games.foldl (fun acc g => if fingerprint g ∈ acc then acc else acc ++ [fingerprint g]) []

/-- The value lists of `hash_to_games`: for each distinct fingerprint,
the games carrying it, in encounter order. -/
def hashGroups (games : List InstGame) : List (List InstGame) :=
  (hashKeys games).map fun h => games.filter fun g => decide (fingerprint g = h)

/-- Models `duplicates = {h: games for ... if len(games) > 1}`. -/
def duplicate_groups (games : List InstGame) : List (List InstGame) :=
  (hashGroups games).filter fun grp => decide (1 < grp.length)

/-- Result of the confirmed pruning pass of `find_duplicates`. -/
structure PruneResult where
  games : List InstGame
  zips : List Str
deriving DecidableEq

/-- The confirmed pruning pass of `find_duplicates`: the games are
enumerated by `_get_all_games()`; within each duplicate group the first
member (`dupe_games[0]`) is kept and every later member
(`dupe_games[1:]`) has its game directory removed (`shutil.rmtree`) and
its matching `zipped/<slug>.zip` deleted when present. -/
def find_duplicates_prune (listing : List InstGame) (zips : List Str) : PruneResult :=
  let ordered := get_all_games listing
  let removedSlugs :=
    (duplicate_groups ordered).flatMap fun grp => (grp.drop 1).map (·.slug)
  ⟨ordered.filter fun g => decide (g.slug ∉ removedSlugs),
    zips.filter fun z => decide (z ∉ removedSlugs)⟩

/-! ## Theorems: decimal rendering -/

theorem decSpec_shape (n : Nat) :
    decSpec n = (if n < 10 then [] else decSpec (n / 10)) ++ [Nat.digitChar (n % 10)] := by
  rw [decSpec]
  by_cases h : n < 10
  · rw [if_pos h, if_pos h, Nat.mod_eq_of_lt h]
    rfl
  · rw [if_neg h, if_neg h]

theorem decSpec_ne_nil (n : Nat) : decSpec n ≠ [] := by
  rw [decSpec_shape]
  simp

theorem digitChar_injOn :
    ∀ a < 10, ∀ b < 10, Nat.digitChar a = Nat.digitChar b → a = b := by decide

theorem decSpec_inj : ∀ m n : Nat, decSpec m = decSpec n → m = n := by
  intro m
  induction m using Nat.strong_induction_on with
  | _ m ih =>
    intro n h
    rw [decSpec_shape m, decSpec_shape n] at h
    obtain ⟨h1, h2⟩ := List.append_inj' h rfl
    have hmod : m % 10 = n % 10 := by
      refine digitChar_injOn (m % 10) (Nat.mod_lt _ (by omega)) (n % 10)
        (Nat.mod_lt _ (by omega)) ?_
      injection h2
    by_cases hm : m < 10 <;> by_cases hn : n < 10
    · omega
    · rw [if_pos hm, if_neg hn] at h1
      exact absurd h1.symm (decSpec_ne_nil _)
    · rw [if_neg hm, if_pos hn] at h1
      exact absurd h1 (decSpec_ne_nil _)
    · rw [if_neg hm, if_neg hn] at h1
      have := ih (m / 10) (Nat.div_lt_self (by omega) (by omega)) (n / 10) h1
      omega

theorem decDigitsCore_eq_decSpec :
    ∀ (fuel n : Nat) (acc : Str), n < fuel → decDigitsCore fuel n acc = decSpec n ++ acc := by
  intro fuel
  induction fuel with
  | zero => intro n acc h; omega
  | succ f ih =>
    intro n acc h
    by_cases h0 : n / 10 = 0
    · have hn : n < 10 := by omega
      simp only [decDigitsCore, h0, if_pos rfl, reduceIte]
      rw [decSpec_shape, if_pos hn]
      rfl
    · simp only [decDigitsCore, h0, reduceIte]
      have hlt : n / 10 < f := by omega
      rw [ih (n / 10) _ hlt, decSpec_shape n, if_neg (by omega : ¬ n < 10)]
      simp

theorem decStr_eq_decSpec (n : Nat) : decStr n = decSpec n := by
  have h := decDigitsCore_eq_decSpec (n + 1) n [] (by omega)
  simpa [decStr] using h

theorem decStr_inj {m n : Nat} (h : decStr m = decStr n) : m = n :=
  decSpec_inj m n (by rwa [decStr_eq_decSpec, decStr_eq_decSpec] at h)

theorem counterSlug_inj {pre : Str} {c d : Nat}
    (h : counterSlug pre c = counterSlug pre d) : c = d := by
  unfold counterSlug at h
  have h2 := List.append_cancel_left h
  exact decStr_inj (by injection h2)

/-! ## Theorems: the identity resolver -/

theorem slugTaken_iff {gs : GamesDirList} {s : Str} :
    slugTaken gs s = true ↔ s ∈ gs.map Prod.fst := by
  unfold slugTaken lookupGame
  simp only [Option.isSome_map', List.find?_isSome, List.mem_map, decide_eq_true_eq]

theorem counterLoop_free (gs : GamesDirList) (pre : Str) :
    ∀ (fuel c : Nat),
      (∃ i, i < fuel ∧ slugTaken gs (counterSlug pre (c + i)) = false) →
      slugTaken gs (counterSlug pre (counterLoop gs pre fuel c)) = false := by
  intro fuel
  induction fuel with
  | zero =>
    intro c h
    obtain ⟨i, hi, _⟩ := h
    omega
  | succ f ih =>
    intro c h
    rw [counterLoop]
    cases ht : slugTaken gs (counterSlug pre c) with
    | false =>
      rw [if_neg (by simp [ht])]
      exact ht
    | true =>
      rw [if_pos (by simp [ht])]
      apply ih
      obtain ⟨i, hi, hfree⟩ := h
      match i with
      | 0 =>
        rw [Nat.add_zero] at hfree
        rw [ht] at hfree
        cases hfree
      | j + 1 =>
        refine ⟨j, by omega, ?_⟩
        have harith : c + 1 + j = c + (j + 1) := by omega
        rw [harith]
        exact hfree

theorem exists_free_counter (gs : GamesDirList) (pre : Str) (c : Nat) :
    ∃ i, i < gs.length + 1 ∧ slugTaken gs (counterSlug pre (c + i)) = false := by
  by_contra hcon
  push_neg at hcon
  have htaken : ∀ i < gs.length + 1, counterSlug pre (c + i) ∈ gs.map Prod.fst := by
    intro i hi
    have hne := hcon i hi
    cases h : slugTaken gs (counterSlug pre (c + i)) with
    | false => exact absurd h hne
    | true => exact slugTaken_iff.mp h
  have hnodup : ((List.range (gs.length + 1)).map fun i => counterSlug pre (c + i)).Nodup := by
    refine List.Nodup.map ?_ (List.nodup_range _)
    intro i j hij
    have := counterSlug_inj hij
    omega
  have hsub : ((List.range (gs.length + 1)).map fun i => counterSlug pre (c + i))
      ⊆ gs.map Prod.fst := by
    intro x hx
    rw [List.mem_map] at hx
    obtain ⟨i, hi, rfl⟩ := hx
    exact htaken i (List.mem_range.mp hi)
  have hle := (List.subperm_of_subset hnodup hsub).length_le
  simp only [List.length_map, List.length_range] at hle
  omega

/-- Unfolding of `get_unique_slug` when the base slug's directory does
not exist. -/
theorem get_unique_slug_of_lookup_none {gs : GamesDirList} {base : Str} (m : Manifest)
    (h : lookupGame gs base = none) : get_unique_slug gs base m = base := by
  unfold get_unique_slug
  rw [h]

/-- Unfolding of `get_unique_slug` when the base slug's directory exists
with `game.json` parse result `occ`. -/
theorem get_unique_slug_of_lookup_some {gs : GamesDirList} {base : Str} {occ : Option Manifest}
    (m : Manifest) (h : lookupGame gs base = some occ) :
    get_unique_slug gs base m =
      if occupantMatches occ m then base
      else if slugTaken gs (authorSuffixSlug base m) then
        if slugTaken gs (versionSuffixSlug base m) then
          counterSlug (versionSuffixSlug base m)
            (counterLoop gs (versionSuffixSlug base m) (gs.length + 1) 2)
        else versionSuffixSlug base m
      else authorSuffixSlug base m := by
  unfold get_unique_slug
  rw [h]

/-- Characterization of `_get_unique_slug`'s result: either the returned
slug's directory does not exist, or the returned slug is the base slug
with the update-in-place condition holding. -/
theorem getUniqueSlug_free_or_update (gs : GamesDirList) (base : Str) (m : Manifest) :
    slugTaken gs (get_unique_slug gs base m) = false ∨
      (get_unique_slug gs base m = base ∧
        ∃ em, lookupGame gs base = some (some em) ∧
          em.author = m.author ∧ em.version = m.version) := by
  cases hl : lookupGame gs base with
  | none =>
    left
    rw [get_unique_slug_of_lookup_none m hl]
    simp [slugTaken, hl]
  | some occ =>
    rw [get_unique_slug_of_lookup_some m hl]
    by_cases hm : occupantMatches occ m = true
    · rw [if_pos hm]
      right
      refine ⟨rfl, ?_⟩
      cases occ with
      | none => simp [occupantMatches] at hm
      | some em =>
        refine ⟨em, rfl, ?_⟩
        simpa [occupantMatches, Bool.and_eq_true, decide_eq_true_eq] using hm
    · rw [if_neg hm]
      left
      cases ha : slugTaken gs (authorSuffixSlug base m) with
      | false =>
        rw [if_neg (by simp [ha])]
        exact ha
      | true =>
        rw [if_pos (by simp [ha])]
        cases hv : slugTaken gs (versionSuffixSlug base m) with
        | false =>
          rw [if_neg (by simp [hv])]
          exact hv
        | true =>
          rw [if_pos (by simp [hv])]
          apply counterLoop_free
          exact exists_free_counter gs (versionSuffixSlug base m) 2

/-- C1: for every games root, base slug and manifest, `_get_unique_slug`
returns a slug (it is total: the counter fallback's fuel `gs.length + 1`
provably suffices, so the model agrees with Python's unbounded loop), and
the returned slug is never one already in use except in the
update-in-place case: it is then the base slug, whose occupant's
(author, version) equal the incoming manifest's. -/
theorem C1_getUniqueSlug_total_unique (gs : GamesDirList) (base : Str) (m : Manifest)
    (h : slugTaken gs (get_unique_slug gs base m) = true) :
    get_unique_slug gs base m = base ∧
      ∃ em, lookupGame gs base = some (some em) ∧
        em.author = m.author ∧ em.version = m.version := by
  rcases getUniqueSlug_free_or_update gs base m with hfree | hupd
  · rw [h] at hfree
    cases hfree
  · exact hupd

/-- Witness for C1 at a concrete update-in-place input: one installed
game `g` by author `a`, version `1.0`, re-resolved with the same
manifest. -/
theorem C1_getUniqueSlug_total_unique_witness :
    get_unique_slug [("g".data, some ⟨some "g".data, some "a".data, some "1.0".data⟩)]
        "g".data ⟨some "g".data, some "a".data, some "1.0".data⟩ = "g".data ∧
      ∃ em,
        lookupGame [("g".data, some ⟨some "g".data, some "a".data, some "1.0".data⟩)]
            "g".data = some (some em) ∧
          em.author = (Manifest.mk (some "g".data) (some "a".data) (some "1.0".data)).author ∧
          em.version = (Manifest.mk (some "g".data) (some "a".data) (some "1.0".data)).version :=
  C1_getUniqueSlug_total_unique _ _ _ (by decide)

/-- C2 counterexample: an installed set in which a game with the
identical manifest record (hence identical (name, author, version)
triple) is installed under `dungeon-by-grace`, yet resolving that very
manifest returns the fresh slug `dungeon-by-grace-v10`, not the existing
one.  The state is reachable: install Ada's `Dungeon`, then Grace's
`Dungeon` (which lands on `dungeon-by-grace`), then re-install Grace's. -/
theorem C2_reinstall_counterexample :
    ("dungeon-by-grace".data,
        some (Manifest.mk (some "Dungeon".data) (some "Grace".data) (some "1.0".data))) ∈
      [("dungeon".data,
          some (Manifest.mk (some "Dungeon".data) (some "Ada".data) (some "1.0".data))),
        ("dungeon-by-grace".data,
          some (Manifest.mk (some "Dungeon".data) (some "Grace".data) (some "1.0".data)))] ∧
      get_unique_slug
          [("dungeon".data,
              some (Manifest.mk (some "Dungeon".data) (some "Ada".data) (some "1.0".data))),
            ("dungeon-by-grace".data,
              some (Manifest.mk (some "Dungeon".data) (some "Grace".data) (some "1.0".data)))]
          (normalizeSlug "Dungeon".data)
          (Manifest.mk (some "Dungeon".data) (some "Grace".data) (some "1.0".data)) =
        "dungeon-by-grace-v10".data ∧
      ("dungeon-by-grace-v10".data : Str) ≠ "dungeon-by-grace".data := by
  refine ⟨by decide, by decide, by decide⟩

/-- C2 (amended): resolving a manifest is idempotent/update-in-place when
the game with matching (author, version) occupies the manifest's BASE
slug: then the resolver returns that base slug.  (The counterexample
shows the original claim fails when the matching install sits under a
disambiguated slug instead of the base slug.) -/
theorem C2_reinstall_update_in_place (gs : GamesDirList) (base : Str) (m em : Manifest)
    (h : lookupGame gs base = some (some em))
    (ha : em.author = m.author) (hv : em.version = m.version) :
    get_unique_slug gs base m = base := by
  have hmatch : occupantMatches (some em) m = true := by
    simp [occupantMatches, ha, hv]
  rw [get_unique_slug_of_lookup_some m h, if_pos hmatch]

/-- Witness for the amended C2: re-resolving the manifest installed at
its base slug `dungeon` returns `dungeon`. -/
theorem C2_reinstall_update_in_place_witness :
    get_unique_slug
        [("dungeon".data,
            some (Manifest.mk (some "Dungeon".data) (some "Ada".data) (some "1.0".data)))]
        "dungeon".data
        (Manifest.mk (some "Dungeon".data) (some "Ada".data) (some "1.0".data)) =
      "dungeon".data :=
  C2_reinstall_update_in_place _ _ _
    (Manifest.mk (some "Dungeon".data) (some "Ada".data) (some "1.0".data))
    (by decide) (by decide) (by decide)

/-- C6: installing a manifest into an empty games root and then a second
manifest with the same normalized display name but a different author
resolves the second to the distinct slug
`<base>-by-<author-slug>` (`authorSlugOf`: the author lowercased,
spaces replaced by hyphens, truncated to 20 characters). -/
theorem C6_collision_author_suffix (m1 m2 : Manifest) (n1 n2 : Str)
    (hn1 : m1.name = some n1) (hn2 : m2.name = some n2)
    (hsame : normalizeSlug n1 = normalizeSlug n2)
    (hauth : m1.author ≠ m2.author) :
    get_unique_slug [] (normalizeSlug n1) m1 = normalizeSlug n1 ∧
      get_unique_slug [(normalizeSlug n1, some m1)] (normalizeSlug n2) m2 =
        normalizeSlug n2 ++ "-by-".data ++ authorSlugOf m2 ∧
      get_unique_slug [(normalizeSlug n1, some m1)] (normalizeSlug n2) m2 ≠
        normalizeSlug n1 := by
  have hempty : lookupGame ([] : GamesDirList) (normalizeSlug n1) = none := rfl
  have hlook : lookupGame [(normalizeSlug n1, some m1)] (normalizeSlug n2) = some (some m1) := by
    rw [← hsame]
    simp [lookupGame]
  have hda : decide (m1.author = m2.author) = false := decide_eq_false hauth
  have hnotmatch : occupantMatches (some m1) m2 = false := by
    simp [occupantMatches, hda]
  have hlen : ("-by-".data : Str).length = 4 := by decide
  have hne : authorSuffixSlug (normalizeSlug n2) m2 ≠ normalizeSlug n2 := by
    intro he
    have hl := congrArg List.length he
    simp only [authorSuffixSlug, List.length_append, hlen] at hl
    omega
  have hfree : slugTaken [(normalizeSlug n1, some m1)]
      (authorSuffixSlug (normalizeSlug n2) m2) = false := by
    cases h' : slugTaken [(normalizeSlug n1, some m1)]
        (authorSuffixSlug (normalizeSlug n2) m2) with
    | false => rfl
    | true =>
      have hmem := slugTaken_iff.mp h'
      simp only [List.map_cons, List.map_nil, List.mem_singleton] at hmem
      rw [hsame] at hmem
      exact absurd hmem hne
  refine ⟨get_unique_slug_of_lookup_none m1 hempty, ?_, ?_⟩
  · rw [get_unique_slug_of_lookup_some m2 hlook, if_neg (by simp [hnotmatch]),
      if_neg (by simp [hfree])]
    rfl
  · rw [get_unique_slug_of_lookup_some m2 hlook, if_neg (by simp [hnotmatch]),
      if_neg (by simp [hfree]), hsame]
    exact hne

/-- Witness for C6: Ada's and Grace's `Dungeon` (the spec's end-to-end
scenario, §8). -/
theorem C6_collision_author_suffix_witness :
    get_unique_slug [] (normalizeSlug "Dungeon".data)
        (Manifest.mk (some "Dungeon".data) (some "Ada".data) (some "1.0".data)) =
      normalizeSlug "Dungeon".data ∧
      get_unique_slug
          [(normalizeSlug "Dungeon".data,
            some (Manifest.mk (some "Dungeon".data) (some "Ada".data) (some "1.0".data)))]
          (normalizeSlug "Dungeon".data)
          (Manifest.mk (some "Dungeon".data) (some "Grace".data) (some "1.0".data)) =
        normalizeSlug "Dungeon".data ++ "-by-".data ++
          authorSlugOf (Manifest.mk (some "Dungeon".data) (some "Grace".data) (some "1.0".data)) ∧
      get_unique_slug
          [(normalizeSlug "Dungeon".data,
            some (Manifest.mk (some "Dungeon".data) (some "Ada".data) (some "1.0".data)))]
          (normalizeSlug "Dungeon".data)
          (Manifest.mk (some "Dungeon".data) (some "Grace".data) (some "1.0".data)) ≠
        normalizeSlug "Dungeon".data :=
  C6_collision_author_suffix
    (Manifest.mk (some "Dungeon".data) (some "Ada".data) (some "1.0".data))
    (Manifest.mk (some "Dungeon".data) (some "Grace".data) (some "1.0".data))
    "Dungeon".data "Dungeon".data rfl rfl rfl (by decide)

/-- C7: `sync_zips` is idempotent when orphan deletion is declined:
running it again on the backup set it produced, with the same installed
set, creates no new backups and reports the identical orphan list. -/
theorem C7_sync_idempotent (installed zips : List Str) :
    (sync_zips installed (sync_zips installed zips false).zips false).created = [] ∧
      (sync_zips installed (sync_zips installed zips false).zips false).orphaned =
        (sync_zips installed zips false).orphaned := by
  have hzips1 : (sync_zips installed zips false).zips =
      zips ++ installed.filter fun s => decide (s ∉ zips) := rfl
  constructor
  · show installed.filter
        (fun s => decide (s ∉ (sync_zips installed zips false).zips)) = []
    rw [hzips1, List.filter_eq_nil_iff]
    intro s hs hdec
    have hnot := of_decide_eq_true hdec
    apply hnot
    rw [List.mem_append]
    by_cases hz : s ∈ zips
    · exact Or.inl hz
    · exact Or.inr (List.mem_filter.mpr ⟨hs, decide_eq_true hz⟩)
  · show ((sync_zips installed zips false).zips.filter
        fun z => decide (z ∉ installed)) = zips.filter fun z => decide (z ∉ installed)
    rw [hzips1, List.filter_append]
    have hnil : ((installed.filter fun s => decide (s ∉ zips)).filter
        fun z => decide (z ∉ installed)) = [] := by
      rw [List.filter_eq_nil_iff]
      intro a ha hdec
      exact (of_decide_eq_true hdec) (List.mem_filter.mp ha).1
    rw [hnil, List.append_nil]

/-- C4: the directory branch of `install_game` classifies by the number
N of manifests found by recursive enumeration: N = 0 fails with the
no-manifest-found branch (which installs nothing), N = 1 installs a
single game rooted at the directory containing the manifest, N ≥ 2
installs a collection, and forcing collection mode is respected for
N = 1. -/
theorem C4_classification (paths : List (List Str)) (force : Bool) :
    (manifestPathsOf paths = [] → classify_install_dir paths force = .noManifest) ∧
      (∀ p, manifestPathsOf paths = [p] → force = false →
        classify_install_dir paths force = .single p.dropLast) ∧
      (∀ p, manifestPathsOf paths = [p] → force = true →
        classify_install_dir paths force = .collection (manifestPathsOf paths)) ∧
      (2 ≤ (manifestPathsOf paths).length →
        classify_install_dir paths force = .collection (manifestPathsOf paths)) := by
  refine ⟨?_, ?_, ?_, ?_⟩
  · intro h
    simp [classify_install_dir, h]
  · intro p h hf
    simp [classify_install_dir, h, hf]
  · intro p h hf
    simp [classify_install_dir, h, hf]
  · intro h
    have h1 : 1 < (manifestPathsOf paths).length := by omega
    simp [classify_install_dir, h1]

/-- Witness for C4: a directory with exactly one manifest `d/game.json`
classifies as a single game rooted at `d`. -/
theorem C4_classification_witness :
    classify_install_dir [["d".data, "game.json".data]] false =
      .single (["d".data, "game.json".data].dropLast) :=
  (C4_classification [["d".data, "game.json".data]] false).2.1
    ["d".data, "game.json".data] (by decide) rfl

/-- C5: `_is_collection_zip` counts entries with
`name.endswith('game.json')`, so the entry `endgame.json` — whose final
path segment is `endgame.json`, not `game.json` — IS counted as a
manifest match, contrary to the claim: an archive with entries
`game.json` and `endgame.json`, which holds exactly one manifest by the
spec's final-segment rule, is classified as a collection. -/
theorem C5_endswith_overcounts :
    is_collection_zip ["game.json".data, "endgame.json".data] = true ∧
      pyEndsWith "endgame.json".data gameJsonName = true ∧
      manifestEntryMatchSpec "endgame.json".data = false ∧
      ["game.json".data, "endgame.json".data].countP manifestEntryMatchSpec = 1 := by
  refine ⟨by decide, by decide, by decide, by decide⟩

/-- C3: declining the overwrite confirmation in `_install_from_zip` does
NOT leave the backups root unchanged: the pre-existing `<slug>.zip` is
first overwritten by `shutil.copy2` and then deleted by
`dest_zip.unlink()`.  Evaluated at a concrete update-in-place input with
an existing backup: the games root survives but the old backup
`dungeon.zip` is gone. -/
theorem C3_declined_zip_install_destroys_backup :
    install_from_zip
        ⟨[("dungeon".data,
            ⟨some (Manifest.mk (some "Dungeon".data) (some "Ada".data) (some "1.0".data)),
              "old-tree".data⟩)],
          [("dungeon".data, "old-backup".data)]⟩
        ⟨Manifest.mk (some "Dungeon".data) (some "Ada".data) (some "1.0".data),
          "dungeon".data, "new-zip".data⟩ false =
      (⟨[("dungeon".data,
            ⟨some (Manifest.mk (some "Dungeon".data) (some "Ada".data) (some "1.0".data)),
              "old-tree".data⟩)],
          []⟩, .cancelled) ∧
      ([] : List (Str × Str)) ≠ [("dungeon".data, "old-backup".data)] := by
  refine ⟨by decide, by decide⟩

/-- C10: the collection loop counts an item whose `game.json` is
malformed as a SUCCESS: `_install_from_directory` prints the
invalid-manifest error and returns normally, so the `except` branch never
fires and the final tally reports 2 successes and 0 failures for a
2-item collection whose second item is malformed, even though only one
game was installed. -/
theorem C10_malformed_item_counted_as_success :
    (install_collection_loop ⟨[], []⟩
        [⟨some (some (Manifest.mk (some "A".data) (some "x".data) (some "1".data))),
            "a".data, "c1".data⟩,
          ⟨some none, "bad".data, "c2".data⟩] true).2 = (2, 0) ∧
      (install_collection_loop ⟨[], []⟩
        [⟨some (some (Manifest.mk (some "A".data) (some "x".data) (some "1".data))),
            "a".data, "c1".data⟩,
          ⟨some none, "bad".data, "c2".data⟩] true).1.games.length = 1 ∧
      (install_from_directory
          ⟨[("a".data,
              ⟨some (Manifest.mk (some "A".data) (some "x".data) (some "1".data)),
                "c1".data⟩)],
            [("a".data, "c1".data)]⟩
          ⟨some none, "bad".data, "c2".data⟩ true).2 = .invalidManifest := by
  refine ⟨by decide, by decide, by decide⟩

/-! ## Theorems: duplicate detection -/

theorem leChars_antisymm : ∀ x y : Str, leChars x y = true → leChars y x = true → x = y := by
  intro x
  induction x with
  | nil =>
    intro y h1 h2
    cases y with
    | nil => rfl
    | cons b bs => simp [leChars] at h2
  | cons a as ih =>
    intro y h1 h2
    cases y with
    | nil => simp [leChars] at h1
    | cons b bs =>
      simp only [leChars] at h1 h2
      by_cases hab : a.toNat = b.toNat
      · rw [if_pos hab] at h1
        rw [if_pos hab.symm] at h2
        have hchar : a = b := Char.ext (UInt32.ext hab)
        rw [hchar, ih bs h1 h2]
      · rw [if_neg hab] at h1
        have hba : ¬ b.toNat = a.toNat := fun h => hab h.symm
        rw [if_neg hba] at h2
        have h1' := of_decide_eq_true h1
        have h2' := of_decide_eq_true h2
        omega

/-- Sorting by key is permutation-invariant on duplicate-free key lists:
the canonical entry order of `json.dumps(..., sort_keys=True)` does not
depend on the key order of the file. -/
theorem insertionSort_keys_eq {m1 m2 : Meta} (hperm : m1.Perm m2)
    (hnodup : (m1.map Prod.fst).Nodup) :
    List.insertionSort metaKeyLe m1 = List.insertionSort metaKeyLe m2 := by
  have hperm12 : (List.insertionSort metaKeyLe m1).Perm (List.insertionSort metaKeyLe m2) :=
    ((List.perm_insertionSort _ m1).trans hperm).trans (List.perm_insertionSort _ m2).symm
  have hs1 : (List.insertionSort metaKeyLe m1).Sorted metaKeyLe :=
    List.sorted_insertionSort _ m1
  have hs2 : (List.insertionSort metaKeyLe m2).Sorted metaKeyLe :=
    List.sorted_insertionSort _ m2
  have hn1 : ((List.insertionSort metaKeyLe m1).map Prod.fst).Nodup :=
    (((List.perm_insertionSort metaKeyLe m1).map Prod.fst).nodup_iff).mpr hnodup
  have hn2 : ((List.insertionSort metaKeyLe m2).map Prod.fst).Nodup := by
    refine (((List.perm_insertionSort metaKeyLe m2).map Prod.fst).nodup_iff).mpr ?_
    exact ((hperm.map Prod.fst).nodup_iff).mp hnodup
  have hstrict : ∀ l : Meta, l.Sorted metaKeyLe → (l.map Prod.fst).Nodup →
      l.Sorted fun p q => metaKeyLe p q ∧ p.1 ≠ q.1 := by
    intro l hs hn
    exact hs.and (List.pairwise_map.mp hn)
  haveI : IsAntisymm (Str × Str) fun p q => metaKeyLe p q ∧ p.1 ≠ q.1 := ⟨by
    rintro ⟨ka, va⟩ ⟨kb, vb⟩ ⟨h1, hne⟩ ⟨h2, _⟩
    exact absurd (leChars_antisymm ka kb h1 h2) hne⟩
  exact List.eq_of_perm_of_sorted hperm12 (hstrict _ hs1 hn1) (hstrict _ hs2 hn2)

/-- The canonical fingerprint depends only on the key-value content of
the manifest record, not on the key order of the file. -/
theorem compute_game_hash_perm_invariant {m1 m2 : Meta} (hperm : m1.Perm m2)
    (hnodup : (m1.map Prod.fst).Nodup) :
    compute_game_hash m1 = compute_game_hash m2 := by
  unfold compute_game_hash dumps_sorted
  rw [insertionSort_keys_eq hperm hnodup]

theorem mem_hashKeys {games : List InstGame} {h : Str} :
    h ∈ hashKeys games ↔ ∃ g ∈ games, fingerprint g = h := by
  suffices H : ∀ (acc : List Str) (gs : List InstGame) (h : Str),
      (h ∈ gs.foldl
          (fun acc g => if fingerprint g ∈ acc then acc else acc ++ [fingerprint g]) acc ↔
        h ∈ acc ∨ ∃ g ∈ gs, fingerprint g = h) by
    have h0 := H [] games h
    simpa [hashKeys] using h0
  intro acc gs
  induction gs generalizing acc with
  | nil => intro h; simp
  | cons g gs ih =>
    intro h
    simp only [List.foldl_cons]
    by_cases hg : fingerprint g ∈ acc
    · rw [if_pos hg, ih]
      constructor
      · rintro (ha | ⟨g', hg', hfp⟩)
        · exact Or.inl ha
        · exact Or.inr ⟨g', List.mem_cons_of_mem _ hg', hfp⟩
      · rintro (ha | ⟨g', hg', hfp⟩)
        · exact Or.inl ha
        · rcases List.mem_cons.mp hg' with heq | hmem
          · exact Or.inl (by rw [← hfp, heq]; exact hg)
          · exact Or.inr ⟨g', hmem, hfp⟩
    · rw [if_neg hg, ih]
      constructor
      · rintro (ha | ⟨g', hg', hfp⟩)
        · rcases List.mem_append.mp ha with h1 | h2
          · exact Or.inl h1
          · exact Or.inr ⟨g, List.mem_cons_self _ _, (List.mem_singleton.mp h2).symm⟩
        · exact Or.inr ⟨g', List.mem_cons_of_mem _ hg', hfp⟩
      · rintro (ha | ⟨g', hg', hfp⟩)
        · exact Or.inl (List.mem_append.mpr (Or.inl ha))
        · rcases List.mem_cons.mp hg' with heq | hmem
          · refine Or.inl (List.mem_append.mpr (Or.inr ?_))
            rw [← hfp, heq]
            exact List.mem_singleton.mpr rfl
          · exact Or.inr ⟨g', hmem, hfp⟩

/-- Every duplicate group is the in-order sublist of games carrying one
fingerprint, and has at least two members. -/
theorem duplicate_groups_mem {gs : List InstGame} {grp : List InstGame}
    (hgrp : grp ∈ duplicate_groups gs) :
    ∃ h, h ∈ hashKeys gs ∧ grp = gs.filter (fun g => decide (fingerprint g = h)) ∧
      1 < grp.length := by
  unfold duplicate_groups hashGroups at hgrp
  rw [List.mem_filter] at hgrp
  obtain ⟨hmem, hlen⟩ := hgrp
  rw [List.mem_map] at hmem
  obtain ⟨h, hh, rfl⟩ := hmem
  exact ⟨h, hh, rfl, of_decide_eq_true hlen⟩

theorem one_lt_length_of_two_mem {α : Type} {l : List α} {a b : α}
    (ha : a ∈ l) (hb : b ∈ l) (hne : a ≠ b) : 1 < l.length := by
  match l with
  | [] => cases ha
  | [x] =>
    rw [List.mem_singleton] at ha hb
    exact absurd (ha.trans hb.symm) hne
  | x :: y :: rest =>
    simp only [List.length_cons]
    omega

/-- C8: two distinct installed games are grouped as duplicates by
`find_duplicates` iff the canonical serializations of their manifest
records hash to identical fingerprints; the fingerprint is invariant
under the key order of the file (any permutation of a duplicate-free
key list yields a bit-identical fingerprint) and never consults the
games' other content files. -/
theorem C8_duplicate_grouping :
    (∀ (gs : List InstGame) (g1 g2 : InstGame), g1 ∈ gs → g2 ∈ gs → g1 ≠ g2 →
      ((∃ grp ∈ duplicate_groups gs, g1 ∈ grp ∧ g2 ∈ grp) ↔
        fingerprint g1 = fingerprint g2)) ∧
      (∀ m1 m2 : Meta, m1.Perm m2 → (m1.map Prod.fst).Nodup →
        compute_game_hash m1 = compute_game_hash m2) ∧
      (∀ (g : InstGame) (c : Str), fingerprint { g with content := c } = fingerprint g) := by
  refine ⟨?_, fun m1 m2 hp hn => compute_game_hash_perm_invariant hp hn, fun g c => rfl⟩
  intro gs g1 g2 h1 h2 hne
  constructor
  · rintro ⟨grp, hgrp, hg1, hg2⟩
    obtain ⟨h, _, hgeq, _⟩ := duplicate_groups_mem hgrp
    rw [hgeq] at hg1 hg2
    have e1 := of_decide_eq_true (List.mem_filter.mp hg1).2
    have e2 := of_decide_eq_true (List.mem_filter.mp hg2).2
    rw [e1, e2]
  · intro hfp
    have hm1 : g1 ∈ gs.filter fun g => decide (fingerprint g = fingerprint g1) :=
      List.mem_filter.mpr ⟨h1, decide_eq_true rfl⟩
    have hm2 : g2 ∈ gs.filter fun g => decide (fingerprint g = fingerprint g1) :=
      List.mem_filter.mpr ⟨h2, decide_eq_true hfp.symm⟩
    refine ⟨gs.filter fun g => decide (fingerprint g = fingerprint g1), ?_, hm1, hm2⟩
    unfold duplicate_groups hashGroups
    rw [List.mem_filter]
    refine ⟨?_, decide_eq_true (one_lt_length_of_two_mem hm1 hm2 hne)⟩
    rw [List.mem_map]
    exact ⟨fingerprint g1, mem_hashKeys.mpr ⟨g1, h1, rfl⟩, rfl⟩

/-- Witness for C8: two games with byte-identical manifests under
different slugs are grouped; reordering the keys of a manifest keeps the
fingerprint; changing a game's content files keeps the fingerprint. -/
theorem C8_duplicate_grouping_witness :
    ((∃ grp ∈ duplicate_groups
          [InstGame.mk "a".data [("name".data, "G".data)] "x".data,
            InstGame.mk "b".data [("name".data, "G".data)] "y".data],
        InstGame.mk "a".data [("name".data, "G".data)] "x".data ∈ grp ∧
          InstGame.mk "b".data [("name".data, "G".data)] "y".data ∈ grp) ↔
      fingerprint (InstGame.mk "a".data [("name".data, "G".data)] "x".data) =
        fingerprint (InstGame.mk "b".data [("name".data, "G".data)] "y".data)) ∧
      compute_game_hash [("author".data, "Ada".data), ("name".data, "G".data)] =
        compute_game_hash [("name".data, "G".data), ("author".data, "Ada".data)] ∧
      fingerprint { InstGame.mk "a".data [("name".data, "G".data)] "x".data with
          content := "z".data } =
        fingerprint (InstGame.mk "a".data [("name".data, "G".data)] "x".data) :=
  ⟨C8_duplicate_grouping.1 _ _ _ (by decide) (by decide) (by decide),
    C8_duplicate_grouping.2.1 _ _
      (List.Perm.swap ("name".data, "G".data) ("author".data, "Ada".data) [])
      (by decide),
    C8_duplicate_grouping.2.2 _ _⟩

/-- C9: when pruning is confirmed, every duplicate group (computed over
the deterministic `_get_all_games()` enumeration order, ascending
lowercased display name) keeps exactly its first member: the head of the
group survives in the games root, and every later member's game
directory and matching `<slug>.zip` backup are removed.  The hypothesis
is that the installed slugs (directory names under one games root) are
distinct. -/
theorem C9_prune_keeps_first (listing : List InstGame) (zips : List Str)
    (hnodup : (listing.map (·.slug)).Nodup)
    (grp : List InstGame)
    (hgrp : grp ∈ duplicate_groups (get_all_games listing)) :
    ∃ k rest, grp = k :: rest ∧
      (∀ g ∈ grp, (g ∈ (find_duplicates_prune listing zips).games ↔ g = k)) ∧
      (∀ g ∈ rest,
        (∀ g' ∈ (find_duplicates_prune listing zips).games, g'.slug ≠ g.slug) ∧
        g.slug ∉ (find_duplicates_prune listing zips).zips) := by
  have hpermord : (get_all_games listing).Perm listing := List.perm_insertionSort _ _
  have hnodups : ((get_all_games listing).map (·.slug)).Nodup :=
    ((hpermord.map _).nodup_iff).mpr hnodup
  have hnodupord : (get_all_games listing).Nodup := hnodups.of_map
  have hgames : (find_duplicates_prune listing zips).games =
      (get_all_games listing).filter fun g =>
        decide (g.slug ∉ (duplicate_groups (get_all_games listing)).flatMap
          fun grp => (grp.drop 1).map (·.slug)) := rfl
  have hzips : (find_duplicates_prune listing zips).zips =
      zips.filter fun z =>
        decide (z ∉ (duplicate_groups (get_all_games listing)).flatMap
          fun grp => (grp.drop 1).map (·.slug)) := rfl
  obtain ⟨h, hh, hgeq, hlen⟩ := duplicate_groups_mem hgrp
  cases grp with
  | nil => simp at hlen
  | cons k rest =>
    have hmemord : ∀ g ∈ k :: rest, g ∈ get_all_games listing ∧ fingerprint g = h := by
      intro g hg
      rw [hgeq] at hg
      exact ⟨(List.mem_filter.mp hg).1, of_decide_eq_true (List.mem_filter.mp hg).2⟩
    have hinj : ∀ a ∈ get_all_games listing, ∀ b ∈ get_all_games listing,
        a.slug = b.slug → a = b :=
      fun a ha b hb he => List.inj_on_of_nodup_map hnodups ha hb he
    have hgrpnodup : (k :: rest).Nodup := by
      rw [hgeq]
      exact hnodupord.filter _
    have hknotin : k ∉ rest := (List.nodup_cons.mp hgrpnodup).1
    have hkmem : k ∈ get_all_games listing := (hmemord k (List.mem_cons_self _ _)).1
    have hkfp : fingerprint k = h := (hmemord k (List.mem_cons_self _ _)).2
    have hkfree : k.slug ∉ (duplicate_groups (get_all_games listing)).flatMap
        fun grp => (grp.drop 1).map (·.slug) := by
      intro hmem
      rw [List.mem_flatMap] at hmem
      obtain ⟨grp', hgrp', hslug⟩ := hmem
      rw [List.mem_map] at hslug
      obtain ⟨g', hg', hge⟩ := hslug
      have hg'mem : g' ∈ grp' := List.drop_subset 1 grp' hg'
      obtain ⟨h', hh', hgeq', hlen'⟩ := duplicate_groups_mem hgrp'
      have hg'ord : g' ∈ get_all_games listing := by
        rw [hgeq'] at hg'mem
        exact (List.mem_filter.mp hg'mem).1
      have hg'k : g' = k := hinj g' hg'ord k hkmem hge
      subst hg'k
      have hk_h' : fingerprint g' = h' := by
        rw [hgeq'] at hg'mem
        exact of_decide_eq_true (List.mem_filter.mp hg'mem).2
      have hh'h : h' = h := by rw [← hk_h', hkfp]
      have hsame : grp' = g' :: rest := by
        rw [hgeq', hh'h, ← hgeq]
      rw [hsame] at hg'
      exact hknotin (by simpa using hg')
    have hrest : ∀ g ∈ rest, g.slug ∈ (duplicate_groups (get_all_games listing)).flatMap
        fun grp => (grp.drop 1).map (·.slug) := by
      intro g hg
      rw [List.mem_flatMap]
      refine ⟨k :: rest, hgrp, ?_⟩
      rw [List.mem_map]
      exact ⟨g, by simpa using hg, rfl⟩
    refine ⟨k, rest, rfl, ?_, ?_⟩
    · intro g hg
      constructor
      · intro hgin
        rw [hgames, List.mem_filter] at hgin
        have hnot := of_decide_eq_true hgin.2
        rcases List.mem_cons.mp hg with heq | hmem
        · exact heq
        · exact absurd (hrest g hmem) hnot
      · rintro rfl
        rw [hgames, List.mem_filter]
        exact ⟨hkmem, decide_eq_true hkfree⟩
    · intro g hg
      constructor
      · intro g' hg' he
        rw [hgames, List.mem_filter] at hg'
        exact (of_decide_eq_true hg'.2) (he ▸ hrest g hg)
      · intro hgz
        rw [hzips, List.mem_filter] at hgz
        exact (of_decide_eq_true hgz.2) (hrest g hg)

/-- Witness for C9: two games `a` and `b` with byte-identical manifests;
pruning keeps `a` (the first in encounter order) and removes `b`'s
directory and backup. -/
theorem C9_prune_keeps_first_witness :
    ∃ k rest,
      [InstGame.mk "a".data [("name".data, "G".data)] "x".data,
        InstGame.mk "b".data [("name".data, "G".data)] "y".data] = k :: rest ∧
      (∀ g ∈ [InstGame.mk "a".data [("name".data, "G".data)] "x".data,
          InstGame.mk "b".data [("name".data, "G".data)] "y".data],
        (g ∈ (find_duplicates_prune
            [InstGame.mk "a".data [("name".data, "G".data)] "x".data,
              InstGame.mk "b".data [("name".data, "G".data)] "y".data]
            ["a".data, "b".data]).games ↔ g = k)) ∧
      (∀ g ∈ rest,
        (∀ g' ∈ (find_duplicates_prune
            [InstGame.mk "a".data [("name".data, "G".data)] "x".data,
              InstGame.mk "b".data [("name".data, "G".data)] "y".data]
            ["a".data, "b".data]).games, g'.slug ≠ g.slug) ∧
        g.slug ∉ (find_duplicates_prune
            [InstGame.mk "a".data [("name".data, "G".data)] "x".data,
              InstGame.mk "b".data [("name".data, "G".data)] "y".data]
            ["a".data, "b".data]).zips) :=
  C9_prune_keeps_first
    [InstGame.mk "a".data [("name".data, "G".data)] "x".data,
      InstGame.mk "b".data [("name".data, "G".data)] "y".data]
    ["a".data, "b".data] (by decide)
    [InstGame.mk "a".data [("name".data, "G".data)] "x".data,
      InstGame.mk "b".data [("name".data, "G".data)] "y".data]
    (by decide)
